import Mathlib

/-!
Verification of the MemoBuild core against its specification.

This file gives a shallow embedding, in Lean 4, of the parts of the MemoBuild
source that the spec's claims talk about: the chunked content-addressed store
(src/cache_utils.rs), node keys and the build graph (src/graph.rs), change
detection and dirty propagation (src/core.rs), the retry helper and the error
taxonomy (src/remote_cache.rs, src/error.rs), the cache server's PUT handler
(src/server/mod.rs), the remote-execution scheduler
(src/remote_exec/scheduler.rs), and the local-sandbox branch of the executor
(src/executor.rs, src/sandbox/local.rs).

The 256-bit blake3 digest is a fixed pure function of its input bytes; the
embedding keeps it abstract as a parameter (usually named `b3`) and records
exactly the bytes the code feeds to it.  Byte strings are `List Nat`
(each element a byte value); Rust `String`s are Lean `String`s;
`HashMap<String, String>` is an association list with unique keys.
-/

namespace MemoBuild

/-! ## CAS chunking (src/cache_utils.rs) -/

/-- `CHUNK_SIZE` from src/cache_utils.rs: 1 MiB chunks. -/
def CHUNK_SIZE : Nat := 1024 * 1024

/-- `ArtifactLayer` from src/cache_utils.rs. -/
structure ArtifactLayer where
  hash : String
  data : List Nat
deriving DecidableEq, Repr

/-- The successive windows produced by Rust's `data.chunks(CHUNK_SIZE)`:
an empty slice yields no chunks, otherwise windows of `CHUNK_SIZE` bytes
with a final shorter window. -/
def chunksOf (data : List Nat) : List (List Nat) :=
  if h : data = [] then []
  else data.take CHUNK_SIZE :: chunksOf (data.drop CHUNK_SIZE)
termination_by data.length
decreasing_by
  have hpos : 0 < data.length := List.length_pos.mpr h
  have hchunk : 0 < CHUNK_SIZE := by decide
  simp only [List.length_drop]
  omega

/-- `split_artifact` from src/cache_utils.rs: each chunk becomes a layer whose
hash is the blake3 digest of the chunk's bytes. -/
def split_artifact (b3 : List Nat → String) (data : List Nat) : List ArtifactLayer :=
  (chunksOf data).map (fun c => { hash := b3 c, data := c })

/-- `merge_artifact` from src/cache_utils.rs: concatenate the layer byte
vectors in order. -/
def merge_artifact (layers : List (List Nat)) : List Nat :=
  layers.flatten

/-! ## Artifact manifests (src/cache_utils.rs) -/

/-- `FileEntry` from src/cache_utils.rs. -/
structure FileEntry where
  path : String
  hash : String
  size : Nat
deriving DecidableEq, Repr

/-- `ArtifactManifest` from src/cache_utils.rs: the `files` vector in stored
order. -/
structure ArtifactManifest where
  files : List FileEntry
deriving DecidableEq, Repr

/-- Rust's `Ord` on `String` compares UTF-8 bytes lexicographically, which
coincides with lexicographic comparison of unicode scalar values.  This is
the comparator under every `sort()` in the embedded code.  (Executable by
design: Mathlib's `String.le` is defined through `String.ltb`, which does not
reduce in the kernel.) -/
def charListLeB : List Char → List Char → Bool
  | [], _ => true
  | _ :: _, [] => false
  | a :: as, b :: bs =>
    if a < b then true
    else if b < a then false
    else charListLeB as bs

/-- Byte-lexicographic order on strings (Rust `String: Ord`). -/
def strLeP (a b : String) : Prop := charListLeB a.data b.data = true

instance : DecidableRel strLeP := fun a b =>
  inferInstanceAs (Decidable (charListLeB a.data b.data = true))

/-- Byte-lexicographic order on manifest entries keyed by path (the spec's
"sorting entries by path"). -/
def entryLePath (a b : FileEntry) : Prop := charListLeB a.path.data b.path.data = true

instance : DecidableRel entryLePath := fun a b =>
  inferInstanceAs (Decidable (charListLeB a.path.data b.path.data = true))

/-- Lowercase hex digit, as used by serde_json's control-character escapes. -/
def hexDigitChar (n : Nat) : Char :=
  if n < 10 then Char.ofNat (48 + n) else Char.ofNat (87 + n)

/-- serde_json's escaping of a single character inside a JSON string. -/
def jsonEscapeChar (c : Char) : String :=
  if c = '"' then "\\\""
  else if c = '\\' then "\\\\"
  else if c = Char.ofNat 8 then "\\b"
  else if c = Char.ofNat 9 then "\\t"
  else if c = Char.ofNat 10 then "\\n"
  else if c = Char.ofNat 12 then "\\f"
  else if c = Char.ofNat 13 then "\\r"
  else if c.toNat < 32 then
    "\\u00" ++ String.mk [hexDigitChar (c.toNat / 16), hexDigitChar (c.toNat % 16)]
  else String.singleton c

/-- serde_json rendering of a string value. -/
def jsonStr (s : String) : String :=
  "\"" ++ String.join (s.data.map jsonEscapeChar) ++ "\""

/-- serde_json rendering of one `FileEntry` (fields in declaration order,
compact separators, `u64` in decimal). -/
def fileEntryJson (f : FileEntry) : String :=
  "\x7b\"path\":" ++ jsonStr f.path ++ ",\"hash\":" ++ jsonStr f.hash
    ++ ",\"size\":" ++ toString f.size ++ "\x7d"

/-- `serde_json::to_string(self)` for an `ArtifactManifest`: the entries are
serialized in their stored order — nothing sorts them. -/
def manifestJson (m : ArtifactManifest) : String :=
  "\x7b\"files\":[" ++ String.intercalate "," (m.files.map fileEntryJson) ++ "]\x7d"

/-- `ArtifactManifest::hash` from src/cache_utils.rs (lines 81-84): blake3
over the JSON serialization of the manifest as stored. -/
def ArtifactManifest.hash (b3 : String → String) (m : ArtifactManifest) : String :=
  b3 (manifestJson m)

/-- Modelled from the spec: "Canonicalized by sorting entries by path. The
manifest's own digest = hash of its canonical serialized form." — the byte
string the spec says the digest is computed over. -/
def canonicalManifestJson (m : ArtifactManifest) : String :=
  manifestJson ⟨m.files.insertionSort entryLePath⟩

/-- One `HashMap::insert` on the association-list model of
`HashMap<String, FileEntry>`: replace the binding if the key is present,
otherwise append it. -/
def hmInsert (m : List (String × FileEntry)) (k : String) (v : FileEntry) :
    List (String × FileEntry) :=
  if m.any (fun p => p.1 = k) then
    m.map (fun p => if p.1 = k then (k, v) else p)
  else m ++ [(k, v)]

/-- `HashMap::get` on the association-list model. -/
def hmLookup (m : List (String × FileEntry)) (k : String) : Option FileEntry :=
  (m.find? (fun p => p.1 = k)).map Prod.snd

/-- Collect a sequence of `(f.path, f)` pairs into the map: later entries with
the same path overwrite earlier ones (both `collect::<HashMap<_,_>>()` and a
loop of `insert`s behave this way). -/
def collectMap (fs : List FileEntry) (init : List (String × FileEntry)) :
    List (String × FileEntry) :=
  fs.foldl (fun m f => hmInsert m f.path f) init

/-- `ArtifactManifest::merge` from src/cache_utils.rs (lines 110-123): build a
path-keyed map from `self.files`, insert every entry of `other.files` (so the
right-hand manifest wins on a path conflict), and store the map's values as
the new `files`.  Rust iterates the `HashMap` in an unspecified order; the
model uses insertion order, and every property proved about the result goes
through path lookups, which do not depend on that choice. -/
def ArtifactManifest.merge (self other : ArtifactManifest) : ArtifactManifest :=
  ⟨(collectMap other.files (collectMap self.files [])).map Prod.snd⟩

/-- First entry with the given path (lookup in a manifest whose paths are
unique, such as a merge result). -/
def findByPath (fs : List FileEntry) (p : String) : Option FileEntry :=
  fs.find? (fun f => f.path = p)

/-- Last entry with the given path: the binding that survives when a file
list is collected into a path-keyed map. -/
def lastByPath (fs : List FileEntry) (p : String) : Option FileEntry :=
  fs.reverse.find? (fun f => f.path = p)

/-! ## Build graph and node keys (src/graph.rs) -/

/-- `NodeKind` from src/graph.rs.  Rust `PathBuf` fields are carried as
strings. -/
inductive NodeKind where
  | fromImage
  | run
  | copy (src dst : String)
  | env
  | workdir
  | cmd
  | git (url : String) (target : String)
  | runExtend (command : String) (parallelizable : Bool)
  | copyExtend (src dst : String) (tags : List String)
  | customHook (hookName : String) (params : List String)
  | other
deriving DecidableEq, Repr

/-- Rust `Debug` rendering of a `String`/`PathBuf`: the text wrapped in
double quotes, with backslash and quote escaped. -/
def rustDebugStr (s : String) : String :=
  "\"" ++ String.join (s.data.map (fun c =>
    if c = '"' then "\\\""
    else if c = '\\' then "\\\\"
    else String.singleton c)) ++ "\""

/-- Rust `Debug` rendering of a `Vec<String>`. -/
def rustDebugStrList (l : List String) : String :=
  "[" ++ String.intercalate ", " (l.map rustDebugStr) ++ "]"

/-- Rust `Debug` rendering of a `bool`. -/
def rustDebugBool (b : Bool) : String := if b then "true" else "false"

/-- The bytes of `format!("{:?}", self.kind)` in
`Node::compute_node_key` (src/graph.rs line 85). -/
def kindDebug : NodeKind → String
  | .fromImage => "From"
  | .run => "Run"
  | .copy src dst =>
      "Copy \x7b src: " ++ rustDebugStr src ++ ", dst: " ++ rustDebugStr dst ++ " \x7d"
  | .env => "Env"
  | .workdir => "Workdir"
  | .cmd => "Cmd"
  | .git url target =>
      "Git \x7b url: " ++ rustDebugStr url ++ ", target: " ++ rustDebugStr target ++ " \x7d"
  | .runExtend command parallelizable =>
      "RunExtend \x7b command: " ++ rustDebugStr command ++ ", parallelizable: "
        ++ rustDebugBool parallelizable ++ " \x7d"
  | .copyExtend src dst tags =>
      "CopyExtend \x7b src: " ++ rustDebugStr src ++ ", dst: " ++ rustDebugStr dst
        ++ ", tags: " ++ rustDebugStrList tags ++ " \x7d"
  | .customHook hookName params =>
      "CustomHook \x7b hook_name: " ++ rustDebugStr hookName ++ ", params: "
        ++ rustDebugStrList params ++ " \x7d"
  | .other => "Other"

/-- `NodeMetadata` from src/graph.rs.  `last_executed` (a `SystemTime`) is
carried as an abstract tick count; `priority` is a `u8` and every value the
program constructs fits in a `Nat`. -/
structure NodeMetadata where
  lastExecuted : Option Nat
  executionTimeMs : Option Nat
  parallelizable : Bool
  priority : Nat
  tags : List String
  sourceContentHash : Option String
  inputManifestHash : Option String
  outputManifestHash : Option String
deriving DecidableEq, Repr

/-- `Node` from src/graph.rs. -/
structure Node where
  id : Nat
  name : String
  content : String
  kind : NodeKind
  hash : String
  dirty : Bool
  deps : List Nat
  sourcePath : Option String
  env : List (String × String)
  cacheHit : Bool
  metadata : NodeMetadata
deriving DecidableEq, Repr

/-- Rust's in-place `Vec::sort` on strings, modelled as the sorted permutation
of the list under the byte-lexicographic order (for a total order the sorted
permutation is unique up to equal elements, so which sorting algorithm Rust
uses is irrelevant at the value level). -/
def sortStrings (l : List String) : List String :=
  l.insertionSort strLeP

/-- `HashMap::get`, on the association-list model of the map. -/
def envGet (env : List (String × String)) (k : String) : Option String :=
  (env.find? (fun p => p.1 = k)).map Prod.snd

/-- The bytes fed for step 2 of `compute_node_key`: each `k=v` with keys in
sorted order, skipped entirely when the map is empty. -/
def envUpdates (env : List (String × String)) : String :=
  if env = [] then ""
  else String.join ((sortStrings (env.map Prod.fst)).map (fun k =>
    match envGet env k with
    | some v => k ++ "=" ++ v
    | none => ""))

/-- `Node::compute_node_key` from src/graph.rs (lines 76-126).  `b3` is the
blake3 digest of the concatenation of all bytes fed to the rolling hasher;
the function assembles exactly that byte stream.  `envFingerprint` stands for
`fp.hash()` of the optional `EnvFingerprint` argument. -/
def Node.compute_node_key (b3 : String → String) (self : Node)
    (depHashes : List String) (contextHash : Option String)
    (envFingerprint : Option String) : String :=
  let s1 := kindDebug self.kind ++ self.content
  let s2 := envUpdates self.env
  let s3 := match contextHash with | some ch => ch | none => ""
  let s4 := match self.metadata.sourceContentHash with | some sh => sh | none => ""
  let s5 := String.join (sortStrings depHashes)
  let s6 := "parallelizable=" ++ rustDebugBool self.metadata.parallelizable
    ++ "priority=" ++ toString self.metadata.priority
  let s7 := match envFingerprint with | some fp => fp | none => ""
  b3 (s1 ++ s2 ++ s3 ++ s4 ++ s5 ++ s6 ++ s7)

/-- `BuildGraph` from src/graph.rs. -/
structure BuildGraph where
  nodes : List Node
deriving DecidableEq, Repr

/-- `graph.nodes[i].deps`, empty when `i` is out of range (the code only
indexes in range). -/
def depsOf (g : BuildGraph) (i : Nat) : List Nat :=
  ((g.nodes.get? i).map Node.deps).getD []

/-- `graph.nodes[i].dirty`, false when `i` is out of range. -/
def dirtyAt (g : BuildGraph) (i : Nat) : Bool :=
  ((g.nodes.get? i).map Node.dirty).getD false

/-- In-place update of one vector element. -/
def modifyAt : List Node → Nat → (Node → Node) → List Node
  | [], _, _ => []
  | x :: xs, 0, f => f x :: xs
  | x :: xs, i + 1, f => x :: modifyAt xs i f

/-- `graph.nodes[i].dirty = true`. -/
def setDirty (g : BuildGraph) (i : Nat) : BuildGraph :=
  ⟨modifyAt g.nodes i (fun n => { n with dirty := true })⟩

/-! ### `topological_order` and `levels` (src/graph.rs lines 142-191) -/

/-- `BuildGraph::dfs_topo` (src/graph.rs lines 156-166): mark the node
visited, recurse into in-range unvisited deps, then push the node.  The Rust
recursion terminates because every nested call is made on an unvisited node
and first marks it visited; `fuel` bounds the recursion depth, and any value
strictly greater than the number of unvisited nodes — in particular the
`nodes.len() + 1` used by `topological_order` below — makes the fuel-out
branch unreachable. -/
def dfsTopo (g : BuildGraph) : Nat → Nat → List Bool → List Nat → List Bool × List Nat
  | 0, _, visited, stack => (visited, stack)
  | fuel + 1, node, visited, stack =>
    let visited1 := visited.set node true
    let vs := (depsOf g node).foldl
      (fun (vs : List Bool × List Nat) dep =>
        if dep < g.nodes.length ∧ vs.1.getD dep false = false then
          dfsTopo g fuel dep vs.1 vs.2
        else vs)
      (visited1, stack)
    (vs.1, vs.2 ++ [node])

/-- `BuildGraph::topological_order` (src/graph.rs lines 142-154): run the DFS
from every not-yet-visited node in index order, then reverse the stack. -/
def topological_order (g : BuildGraph) : List Nat :=
  let n := g.nodes.length
  let vs := (List.range n).foldl
    (fun (vs : List Bool × List Nat) i =>
      if vs.1.getD i false = false then dfsTopo g (n + 1) i vs.1 vs.2 else vs)
    (List.replicate n false, [])
  vs.2.reverse

/-- `BuildGraph::levels` (src/graph.rs lines 169-191): one relaxation pass
over `topological_order()`, then bucket the nodes by level. -/
def levels (g : BuildGraph) : List (List Nat) :=
  let n := g.nodes.length
  let nodeLevels := (topological_order g).foldl
    (fun (nl : List Nat) nodeId =>
      let maxDep := (depsOf g nodeId).foldl
        (fun acc dep =>
          if dep < n then max acc (nl.getD dep 0 + 1) else acc) 0
      nl.set nodeId maxDep)
    (List.replicate n 0)
  let maxLevel := nodeLevels.foldl max 0
  (List.range (maxLevel + 1)).map
    (fun lv => (List.range n).filter (fun i => nodeLevels.getD i 0 = lv))

/-- Modelled from the spec: "topological_order() yields each dependency
strictly before its dependents" — checked positionally on the produced
order. -/
def topoRespectsDeps (g : BuildGraph) (ord : List Nat) : Bool :=
  (List.range g.nodes.length).all (fun i =>
    (depsOf g i).all (fun d =>
      !(decide (d < g.nodes.length)) || decide (ord.indexOf d < ord.indexOf i)))

/-- Modelled from the spec: "levels()[k] contains only nodes whose deps are
all in levels 0..k-1". -/
def levelsWellFormed (g : BuildGraph) : Bool :=
  let ls := levels g
  (List.range ls.length).all (fun k =>
    (ls.getD k []).all (fun i =>
      (depsOf g i).all (fun d =>
        !(decide (d < g.nodes.length)) ||
        (List.range k).any (fun k2 => (ls.getD k2 []).contains d))))

/-! ### `propagate_dirty` (src/core.rs lines 85-101) -/

/-- `deps_dirty` for node `i`: some dep is in range and dirty. -/
def depsDirty (g : BuildGraph) (i : Nat) : Bool :=
  (depsOf g i).any (fun d => decide (d < g.nodes.length) && dirtyAt g d)

/-- The body of the `for i in 0..len` loop: mark `i` dirty (and record a
change) when some dependency is dirty and `i` is not. -/
def passStep (acc : BuildGraph × Bool) (i : Nat) : BuildGraph × Bool :=
  if depsDirty acc.1 i && !(dirtyAt acc.1 i) then (setDirty acc.1 i, true)
  else acc

/-- One full pass of the `while changed` loop in `propagate_dirty`:
`changed` starts false and the graph is mutated in place, so later indices in
the same pass see earlier updates. -/
def passOnce (g : BuildGraph) : BuildGraph × Bool :=
  (List.range g.nodes.length).foldl passStep (g, false)

/-- The `while changed` loop, with `fuel` bounding the number of passes that
report a change.  A changing pass strictly decreases the number of clean
nodes, so `nodes.len() + 1` passes always suffice
(`propagateAux_reaches_fixpoint` below proves the fuel is never
exhausted). -/
def propagateAux : Nat → BuildGraph → BuildGraph
  | 0, g => g
  | fuel + 1, g =>
    let r := passOnce g
    if r.2 then propagateAux fuel r.1 else r.1

/-- `propagate_dirty` from src/core.rs (lines 85-101). -/
def propagate_dirty (g : BuildGraph) : BuildGraph :=
  propagateAux (g.nodes.length + 1) g

/-- Number of clean (not dirty) nodes: the termination measure of the
`while changed` loop. -/
def cleanCount (g : BuildGraph) : Nat :=
  (g.nodes.filter (fun n => !n.dirty)).length

/-- Reverse-dependency edge: `d` is an in-range dependency of the in-range
node `m`, so dirtiness of `d` must cascade to `m`. -/
def depEdge (g : BuildGraph) (d m : Nat) : Prop :=
  d < g.nodes.length ∧ m < g.nodes.length ∧ d ∈ depsOf g m

/-- A node with its dirty flag cleared: two nodes with equal `eraseDirty`
images agree on every field except possibly `dirty`. -/
def eraseDirty (n : Node) : Node := { n with dirty := false }

/-- Concrete sample node for evaluating the graph algorithms. -/
def sampleNode (id : Nat) (deps : List Nat) (dirty : Bool) : Node :=
  ⟨id, "n", "RUN c", .run, "", dirty, deps, none, [], false,
   ⟨none, none, true, 0, [], none, none, none⟩⟩

/-- A three-node dependency chain 0 ← 1 ← 2 (node 1 depends on 0, node 2 on
1); it satisfies the DAG invariant — every dep ordinal is strictly below the
node's own id. -/
def chainGraph3 : BuildGraph :=
  ⟨[sampleNode 0 [] false, sampleNode 1 [0] false, sampleNode 2 [1] false]⟩

/-- The same chain with node 0 marked dirty. -/
def chainGraph3Dirty : BuildGraph :=
  ⟨[sampleNode 0 [] true, sampleNode 1 [0] false, sampleNode 2 [1] false]⟩

/-! ## Error taxonomy and retry (src/error.rs, src/remote_cache.rs) -/

/-- `MemoBuildError` from src/error.rs.  The wrapped `anyhow` variant carries
its message. -/
inductive MemoBuildError where
  | casIntegrityFailure (expected actual : String) (dataSize : Nat)
  | networkError (message : String) (retryable : Bool) (attempt : Nat)
  | storageError (operation reason : String)
  | cacheCoherencyError (hash reason : String)
  | syncError (message : String) (recovered : Bool)
  | metadataError (operation reason : String)
  | constraintViolation (reason : String)
  | otherError (message : String)
deriving DecidableEq, Repr

/-- `is_retryable` from src/error.rs (lines 89-100). -/
def is_retryable : MemoBuildError → Bool
  | .networkError _ retryable _ => retryable
  | .casIntegrityFailure .. => false
  | .storageError .. => false
  | .cacheCoherencyError .. => false
  | .metadataError .. => true
  | .syncError .. => true
  | .constraintViolation .. => false
  | .otherError _ => false

/-- `RetryConfig` from src/error.rs.  `backoff_multiplier` is an `f64` used
only inside `calculate_backoff`, which computes the sleep duration; the sleep
does not affect any returned value and is not modelled. -/
structure RetryConfig where
  maxAttempts : Nat
  initialBackoffMs : Nat
  maxBackoffMs : Nat
deriving DecidableEq, Repr

/-- `RetryConfig::default()`. -/
def defaultRetryConfig : RetryConfig := ⟨3, 100, 5000⟩

/-- The loop of `retry_with_backoff` (src/remote_cache.rs lines 58-89).
`op k` is the outcome of the (k+1)-st invocation of `operation()`;
`remaining` counts the retries still allowed (Rust exits with an error once
the incremented `attempt` counter reaches `max_attempts`, so `remaining`
starts at `max_attempts - 1`); `k` counts the invocations already made.
Returns the final result — exhaustion is the anyhow error
"Operation failed after {max_attempts} attempts: {e}", modelled structurally
as the pair of `max_attempts` and the last error — together with the total
number of invocations of `operation()`. -/
def retryFrom (op : Nat → Except MemoBuildError α) (maxAttempts : Nat) :
    Nat → Nat → Except (Nat × MemoBuildError) α × Nat
  | remaining, k =>
    match op k with
    | .ok v => (.ok v, k + 1)
    | .error e =>
      match remaining with
      | 0 => (.error (maxAttempts, e), k + 1)
      | r + 1 => retryFrom op maxAttempts r (k + 1)

/-- `retry_with_backoff` from src/remote_cache.rs: run `operation()` until it
succeeds or `max_attempts` invocations have failed.  No error kind is
inspected anywhere in the loop. -/
def retry_with_backoff (op : Nat → Except MemoBuildError α)
    (config : RetryConfig) : Except (Nat × MemoBuildError) α × Nat :=
  retryFrom op config.maxAttempts (config.maxAttempts - 1) 0

/-- An operation whose first invocation fails with a CAS integrity failure
and whose second invocation succeeds. -/
def opIntegrityThenOk : Nat → Except MemoBuildError Nat :=
  fun k => if k = 0 then .error (.casIntegrityFailure "e" "a" 5) else .ok 42

/-! ## Cache server PUT handler (src/server/mod.rs lines 486-523) -/

/-- Outcome of the server's `put_artifact`/`put_layer` handlers: the HTTP
status (201 Created / 400 Bad Request), the `CASIntegrityFailure` the handler
constructs on a mismatch, and the resulting blob store. -/
structure PutOutcome where
  status : Nat
  integrityError : Option MemoBuildError
  store : List (String × List Nat)
deriving DecidableEq, Repr

/-- `put_artifact` from src/server/mod.rs (lines 486-523): hash the received
request body exactly as it arrived — the handler performs no decompression —
compare with the declared hash from the path, reject with 400 and a
`CASIntegrityFailure{expected, actual, size}` on mismatch (nothing is
stored), store the blob and answer 201 on match.  The storage/metadata
error paths (500) are modelled as succeeding. -/
def put_artifact (b3 : List Nat → String) (hash : String) (body : List Nat)
    (store : List (String × List Nat)) : PutOutcome :=
  let actual := b3 body
  if actual ≠ hash then
    { status := 400,
      integrityError := some (.casIntegrityFailure hash actual body.length),
      store := store }
  else
    { status := 201, integrityError := none, store := (hash, body) :: store }

/-! ## Remote-execution scheduler (src/remote_exec/mod.rs, scheduler.rs) -/

/-- `Digest` from src/remote_exec/mod.rs (REAPI digest). -/
structure Digest where
  hash : String
  sizeBytes : Int
deriving DecidableEq, Repr

/-- `ActionRequest` from src/remote_exec/mod.rs; the `Duration` timeout is
carried in milliseconds. -/
structure ActionRequest where
  command : List String
  env : List (String × String)
  inputRootDigest : Digest
  timeoutMs : Nat
  platformProperties : List (String × String)
  outputFiles : List String
  outputDirectories : List String
deriving DecidableEq, Repr

/-- `ExecutionMetadata` from src/remote_exec/mod.rs. -/
structure ExecutionMetadata where
  workerId : String
  queuedTimestamp : Option Int
  workerStartTimestamp : Option Int
  workerCompletedTimestamp : Option Int
deriving DecidableEq, Repr

/-- `ActionResult` from src/remote_exec/mod.rs. -/
structure ActionResult where
  outputFiles : List (String × Digest)
  exitCode : Int
  stdoutRaw : List Nat
  stderrRaw : List Nat
  executionMetadata : ExecutionMetadata
deriving DecidableEq, Repr

/-- `SchedulingStrategy` from src/remote_exec/scheduler.rs. -/
inductive SchedulingStrategy where
  | leastLoaded
  | random
  | roundRobin
  | dataLocality
deriving DecidableEq, Repr

/-- `Scheduler` from src/remote_exec/scheduler.rs, polymorphic over the
worker handle (`Arc<dyn RemoteExecutor>` in Rust); the `next_worker` mutex
cell is passed explicitly as `counter` below. -/
structure Scheduler (α : Type) where
  workers : List α
  strategy : SchedulingStrategy

/-- `Scheduler::select_worker` (src/remote_exec/scheduler.rs lines 30-62).
`b3Bytes` gives the 32 blake3 digest bytes of a string (the code reads
bytes[0] and bytes[1]); `rng` models the `thread_rng` draw for Random;
`counter` models the `next_worker` cell, whose maintained invariant keeps it
below `workers.len()`.  Returns the selected worker index and the updated
counter. -/
def Scheduler.select_worker (s : Scheduler α) (b3Bytes : String → List Nat)
    (rng counter : Nat) (action : ActionRequest) : Except String (Nat × Nat) :=
  if s.workers.isEmpty then .error "No available workers in the build farm"
  else
    match s.strategy with
    | .random => .ok (rng % s.workers.length, counter)
    | .roundRobin => .ok (counter, (counter + 1) % s.workers.length)
    | .leastLoaded => .ok (counter, (counter + 1) % s.workers.length)
    | .dataLocality =>
      let bytes := b3Bytes action.inputRootDigest.hash
      .ok ((bytes.getD 0 0 + bytes.getD 1 0 * 256) % s.workers.length, counter)

/-- `Scheduler::execute` (src/remote_exec/scheduler.rs lines 67-70): select a
worker and forward the action; `run` is the selected worker's `execute`. -/
def Scheduler.execute [Inhabited α] (s : Scheduler α)
    (b3Bytes : String → List Nat) (rng counter : Nat)
    (run : α → ActionRequest → ActionResult) (action : ActionRequest) :
    Except String ActionResult :=
  match s.select_worker b3Bytes rng counter action with
  | .error e => .error e
  | .ok (idx, _) => .ok (run (s.workers.getD idx default) action)

/-! ## Local-sandbox evaluation path (src/executor.rs, src/sandbox/local.rs) -/

/-- `SandboxEnv` from src/sandbox/mod.rs. -/
structure SandboxEnv where
  workspaceDir : String
  envVars : List (String × String)
deriving DecidableEq, Repr

/-- `ExecResult` from src/sandbox/mod.rs. -/
structure ExecResult where
  exitCode : Int
  stdout : List Nat
  stderr : List Nat
deriving DecidableEq, Repr

/-- The sandbox methods the executor can invoke. -/
inductive SandboxCall where
  | prepare
  | execute
  | cleanup
deriving DecidableEq, Repr

/-- Failure of the local evaluation path: a propagated sandbox error or the
`bail!("Command failed with exit code {}: {}", ...)` for a non-zero exit. -/
inductive NodeExecError where
  | sandboxFailure (message : String)
  | commandFailed (exitCode : Int) (stderr : List Nat)
deriving DecidableEq, Repr

/-- `LocalSandbox::cleanup` (src/sandbox/local.rs lines 93-95): a no-op that
always succeeds. -/
def localSandboxCleanup (env : SandboxEnv) : Except NodeExecError Unit := .ok ()

/-- The local-sandbox branch of `IncrementalExecutor::execute_node_logic`
(src/executor.rs lines 401-431):
`let env = sandbox.prepare(node).await?;`
`let exec_result = sandbox.execute(&env, node).await?;`
`if exec_result.exit_code != 0 { anyhow::bail!(...); }`
`let data = exec_result.stdout; sandbox.cleanup(&env).await?; data`.
The sandbox's behaviour is supplied as the outcomes `prep`, `exec` and
`clean`; alongside the value the function returns the exact sequence of
sandbox methods invoked. -/
def execute_node_sandbox (prep : Except NodeExecError SandboxEnv)
    (exec : SandboxEnv → Except NodeExecError ExecResult)
    (clean : SandboxEnv → Except NodeExecError Unit) :
    Except NodeExecError (List Nat) × List SandboxCall :=
  match prep with
  | .error e => (.error e, [.prepare])
  | .ok env =>
    match exec env with
    | .error e => (.error e, [.prepare, .execute])
    | .ok r =>
      if r.exitCode ≠ 0 then
        (.error (.commandFailed r.exitCode r.stderr), [.prepare, .execute])
      else
        match clean env with
        | .error e => (.error e, [.prepare, .execute, .cleanup])
        | .ok _ => (.ok r.stdout, [.prepare, .execute, .cleanup])

/-! ## Theorems -/

theorem charListLeB_total : ∀ as bs,
    charListLeB as bs = true ∨ charListLeB bs as = true := by
  intro as
  induction as with
  | nil => intro bs; left; rfl
  | cons a as ih =>
    intro bs
    cases bs with
    | nil => right; rfl
    | cons b bs =>
      by_cases hab : a < b
      · left; simp [charListLeB, hab]
      · by_cases hba : b < a
        · right; simp [charListLeB, hba]
        · have heq : a = b := le_antisymm (not_lt.mp hba) (not_lt.mp hab)
          subst heq
          rcases ih bs with h | h
          · left; simp [charListLeB, lt_irrefl, h]
          · right; simp [charListLeB, lt_irrefl, h]

theorem charListLeB_antisymm : ∀ as bs,
    charListLeB as bs = true → charListLeB bs as = true → as = bs := by
  intro as
  induction as with
  | nil =>
    intro bs h1 h2
    cases bs with
    | nil => rfl
    | cons b bs => simp [charListLeB] at h2
  | cons a as ih =>
    intro bs h1 h2
    cases bs with
    | nil => simp [charListLeB] at h1
    | cons b bs =>
      by_cases hab : a < b
      · have hba : ¬ (b < a) := asymm hab
        simp [charListLeB, hab, hba] at h2
      · by_cases hba : b < a
        · simp [charListLeB, hab, hba] at h1
        · have heq : a = b := le_antisymm (not_lt.mp hba) (not_lt.mp hab)
          subst heq
          simp only [charListLeB, lt_irrefl, if_false] at h1 h2
          rw [ih bs h1 h2]

theorem charListLeB_trans : ∀ as bs cs,
    charListLeB as bs = true → charListLeB bs cs = true →
    charListLeB as cs = true := by
  intro as
  induction as with
  | nil => intro bs cs h1 h2; rfl
  | cons a as ih =>
    intro bs cs h1 h2
    cases bs with
    | nil => simp [charListLeB] at h1
    | cons b bs =>
      cases cs with
      | nil => simp [charListLeB] at h2
      | cons c cs =>
        by_cases hab : a < b
        · by_cases hbc : b < c
          · simp [charListLeB, lt_trans hab hbc]
          · by_cases hcb : c < b
            · have hba : ¬ (b < a) := asymm hab
              simp [charListLeB, hcb, asymm hcb] at h2
            · have heq : b = c := le_antisymm (not_lt.mp hcb) (not_lt.mp hbc)
              subst heq
              simp [charListLeB, hab]
        · by_cases hba : b < a
          · simp [charListLeB, hab, hba] at h1
          · have heq : a = b := le_antisymm (not_lt.mp hba) (not_lt.mp hab)
            subst heq
            simp only [charListLeB, lt_irrefl, if_false] at h1 h2 ⊢
            by_cases hac : a < c
            · simp [hac]
            · by_cases hca : c < a
              · simp [hca] at h2
                exact absurd h2 hac
              · simp only [hac, hca, if_false] at h2 ⊢
                exact ih bs cs h1 h2

theorem strLeP_isTotal : IsTotal String strLeP :=
  ⟨fun a b => charListLeB_total a.data b.data⟩

theorem strLeP_isTrans : IsTrans String strLeP :=
  ⟨fun a b c => charListLeB_trans a.data b.data c.data⟩

theorem strLeP_isAntisymm : IsAntisymm String strLeP := by
  constructor
  intro a b h1 h2
  cases a with
  | mk as =>
    cases b with
    | mk bs =>
      rw [charListLeB_antisymm as bs h1 h2]

/-- Sorting is a function of the multiset of elements: permuted inputs sort to
the same list. -/
theorem sortStrings_perm_eq {l₁ l₂ : List String} (h : l₁.Perm l₂) :
    sortStrings l₁ = sortStrings l₂ := by
  apply @List.eq_of_perm_of_sorted _ strLeP strLeP_isAntisymm
  · exact ((List.perm_insertionSort _ l₁).trans h).trans
      (List.perm_insertionSort _ l₂).symm
  · exact @List.sorted_insertionSort _ strLeP _ strLeP_isTotal strLeP_isTrans l₁
  · exact @List.sorted_insertionSort _ strLeP _ strLeP_isTotal strLeP_isTrans l₂

theorem any_eq_find?_isSome {α : Type} (l : List α) (p : α → Bool) :
    l.any p = (l.find? p).isSome := by
  induction l with
  | nil => rfl
  | cons x xs ih =>
    by_cases h : p x
    · simp [List.find?, h]
    · simp only [List.any_cons, List.find?, h, Bool.false_or]
      simpa [h] using ih

theorem hmLookup_map_ne (m : List (String × FileEntry)) (k k2 : String)
    (v : FileEntry) (h : k2 ≠ k) :
    hmLookup (m.map (fun p => if p.1 = k then (k, v) else p)) k2 = hmLookup m k2 := by
  induction m with
  | nil => rfl
  | cons q rest ih =>
    unfold hmLookup at *
    rw [List.map_cons]
    by_cases hq : q.1 = k
    · have h2 : ¬ (q.1 = k2) := by rw [hq]; exact fun he => h he.symm
      rw [if_pos hq]
      rw [List.find?_cons_of_neg _ (by simp; exact fun he => h he.symm)]
      rw [List.find?_cons_of_neg _ (by simpa using h2)]
      exact ih
    · rw [if_neg hq]
      by_cases hq2 : q.1 = k2
      · rw [List.find?_cons_of_pos _ (by simpa using hq2),
          List.find?_cons_of_pos _ (by simpa using hq2)]
      · rw [List.find?_cons_of_neg _ (by simpa using hq2),
          List.find?_cons_of_neg _ (by simpa using hq2)]
        exact ih

theorem hmLookup_map_eq (m : List (String × FileEntry)) (k : String)
    (v : FileEntry) (h : m.any (fun p => p.1 = k) = true) :
    hmLookup (m.map (fun p => if p.1 = k then (k, v) else p)) k = some v := by
  induction m with
  | nil => simp at h
  | cons q rest ih =>
    unfold hmLookup at *
    rw [List.map_cons]
    by_cases hq : q.1 = k
    · rw [if_pos hq]
      rw [List.find?_cons_of_pos _ (by simp)]
      rfl
    · simp only [List.any_cons, decide_eq_true_eq, hq, decide_False,
        Bool.false_or] at h
      rw [if_neg hq, List.find?_cons_of_neg _ (by simpa using hq)]
      exact ih h

theorem hmLookup_insert (m : List (String × FileEntry)) (k k2 : String)
    (v : FileEntry) :
    hmLookup (hmInsert m k v) k2 = if k2 = k then some v else hmLookup m k2 := by
  unfold hmInsert
  by_cases hany : m.any (fun p => p.1 = k) = true
  · rw [if_pos hany]
    by_cases h : k2 = k
    · subst h
      rw [if_pos rfl]
      exact hmLookup_map_eq m k2 v hany
    · rw [if_neg h]
      exact hmLookup_map_ne m k k2 v h
  · rw [if_neg hany]
    have hnone : m.find? (fun p => decide (p.1 = k)) = none :=
      List.find?_eq_none.mpr (fun x hx hpx =>
        hany (List.any_eq_true.mpr ⟨x, hx, hpx⟩))
    unfold hmLookup
    rw [List.find?_append]
    by_cases h : k2 = k
    · subst h
      rw [if_pos rfl, hnone]
      simp [List.find?]
    · rw [if_neg h]
      have h1 : ¬ ((k : String) = k2) := fun he => h he.symm
      rw [show List.find? (fun p => decide (p.1 = k2)) [(k, v)] = none by
        simp [List.find?, h1]]
      cases hfind : m.find? (fun p => decide (p.1 = k2)) with
      | none => simp [hfind]
      | some q => simp [hfind]

theorem collectMap_lookup (fs : List FileEntry)
    (init : List (String × FileEntry)) (k : String) :
    hmLookup (collectMap fs init) k
      = (match lastByPath fs k with
         | some f => some f
         | none => hmLookup init k) := by
  induction fs generalizing init with
  | nil => rfl
  | cons f rest ih =>
    show hmLookup (collectMap rest (hmInsert init f.path f)) k = _
    rw [ih]
    unfold lastByPath
    rw [List.reverse_cons, List.find?_append]
    cases hrest : rest.reverse.find? (fun g => g.path = k) with
    | some g => simp [hrest]
    | none =>
      simp only [hrest, Option.none_orElse]
      rw [hmLookup_insert]
      by_cases h : f.path = k
      · simp [List.find?, h, if_pos h.symm]
      · have h2 : ¬ (k = f.path) := fun he => h he.symm
        simp [List.find?, h, if_neg h2]

/-- Every binding in a collected map pairs a path with an entry having that
path. -/
theorem collectMap_coherent (fs : List FileEntry)
    (init : List (String × FileEntry))
    (hinit : ∀ q ∈ init, q.1 = q.2.path) :
    ∀ q ∈ collectMap fs init, q.1 = q.2.path := by
  induction fs generalizing init with
  | nil => exact hinit
  | cons f rest ih =>
    apply ih
    intro q hq
    simp only [hmInsert] at hq
    split at hq
    · rcases List.mem_map.mp hq with ⟨q0, hq0, rfl⟩
      by_cases hq0f : q0.1 = f.path
      · simp [hq0f]
      · simpa [hq0f] using hinit q0 hq0
    · rcases List.mem_append.mp hq with hq | hq
      · exact hinit q hq
      · simp at hq
        simp [hq]

theorem findByPath_map_snd (m : List (String × FileEntry))
    (hco : ∀ q ∈ m, q.1 = q.2.path) (p : String) :
    findByPath (m.map Prod.snd) p = hmLookup m p := by
  induction m with
  | nil => rfl
  | cons q rest ih =>
    have hq : q.1 = q.2.path := hco q (List.mem_cons_self q rest)
    by_cases h : q.2.path = p
    · have h1 : q.1 = p := by rw [hq, h]
      simp [findByPath, hmLookup, List.find?, h, h1]
    · have h1 : ¬ (q.1 = p) := by rw [hq]; exact h
      simp only [findByPath, hmLookup, List.map_cons, List.find?, h, h1,
        decide_False] at *
      exact ih (fun r hr => hco r (List.mem_cons_of_mem q hr))

theorem merge_lookup (m1 m2 : ArtifactManifest) (p : String) :
    findByPath (m1.merge m2).files p
      = (match lastByPath m2.files p with
         | some f => some f
         | none => lastByPath m1.files p) := by
  unfold ArtifactManifest.merge
  rw [findByPath_map_snd _
    (collectMap_coherent _ _ (collectMap_coherent _ _ (by intro q hq; simp at hq)))]
  rw [collectMap_lookup, collectMap_lookup]
  cases lastByPath m2.files p with
  | some f => rfl
  | none =>
    cases lastByPath m1.files p with
    | some f => rfl
    | none => rfl

theorem chunksOf_flatten : ∀ n (data : List Nat), data.length ≤ n →
    (chunksOf data).flatten = data := by
  intro n
  induction n with
  | zero =>
    intro data h
    have : data = [] := List.eq_nil_of_length_eq_zero (Nat.le_zero.mp h)
    subst this
    unfold chunksOf
    simp
  | succ n ih =>
    intro data h
    unfold chunksOf
    by_cases hd : data = []
    · simp [hd]
    · simp only [hd, dif_neg, not_false_iff, List.flatten_cons]
      have hdrop : (data.drop CHUNK_SIZE).length ≤ n := by
        have hpos : 0 < data.length := List.length_pos.mpr hd
        have : CHUNK_SIZE > 0 := by decide
        simp only [List.length_drop]
        omega
      rw [ih _ hdrop, List.take_append_drop]

theorem chunksOf_mem_bounds : ∀ n (data : List Nat), data.length ≤ n →
    ∀ c ∈ chunksOf data, c.length ≤ CHUNK_SIZE := by
  intro n
  induction n with
  | zero =>
    intro data h c hc
    have : data = [] := List.eq_nil_of_length_eq_zero (Nat.le_zero.mp h)
    subst this
    unfold chunksOf at hc
    simp at hc
  | succ n ih =>
    intro data h c hc
    unfold chunksOf at hc
    by_cases hd : data = []
    · simp [hd] at hc
    · simp only [hd, dif_neg, not_false_iff, List.mem_cons] at hc
      rcases hc with rfl | hc
      · simpa using List.length_take_le CHUNK_SIZE data
      · have hdrop : (data.drop CHUNK_SIZE).length ≤ n := by
          have hpos : 0 < data.length := List.length_pos.mpr hd
          have : CHUNK_SIZE > 0 := by decide
          simp only [List.length_drop]
          omega
        exact ih _ hdrop c hc

/-! ### Lemmas about `propagate_dirty` -/

theorem modifyAt_get? : ∀ (l : List Node) (i j : Nat) (f : Node → Node),
    (modifyAt l i f).get? j = if j = i then (l.get? i).map f else l.get? j := by
  intro l
  induction l with
  | nil =>
    intro i j f
    simp [modifyAt]
  | cons x xs ih =>
    intro i j f
    cases i with
    | zero =>
      cases j with
      | zero => rfl
      | succ j => simp [modifyAt]
    | succ i =>
      cases j with
      | zero => simp [modifyAt]
      | succ j =>
        show (modifyAt xs i f).get? j = _
        rw [ih i j f]
        by_cases h : j = i
        · simp [h]
        · simp [h, fun hc => h (Nat.succ_injective hc)]

theorem modifyAt_length : ∀ (l : List Node) (i : Nat) (f : Node → Node),
    (modifyAt l i f).length = l.length := by
  intro l
  induction l with
  | nil => intro i f; rfl
  | cons x xs ih =>
    intro i f
    cases i with
    | zero => rfl
    | succ i => simp [modifyAt, ih]

theorem setDirty_length (g : BuildGraph) (i : Nat) :
    (setDirty g i).nodes.length = g.nodes.length :=
  modifyAt_length g.nodes i _

theorem setDirty_get? (g : BuildGraph) (i j : Nat) :
    (setDirty g i).nodes.get? j
      = if j = i then (g.nodes.get? i).map (fun n => { n with dirty := true })
        else g.nodes.get? j :=
  modifyAt_get? g.nodes i j _

theorem setDirty_eraseDirty (g : BuildGraph) (i j : Nat) :
    ((setDirty g i).nodes.get? j).map eraseDirty
      = (g.nodes.get? j).map eraseDirty := by
  rw [setDirty_get?]
  by_cases h : j = i
  · subst h
    rw [if_pos rfl]
    cases g.nodes.get? j with
    | none => rfl
    | some n => rfl
  · rw [if_neg h]

theorem setDirty_depsOf (g : BuildGraph) (i j : Nat) :
    depsOf (setDirty g i) j = depsOf g j := by
  unfold depsOf
  rw [setDirty_get?]
  by_cases h : j = i
  · subst h
    rw [if_pos rfl]
    cases g.nodes.get? j with
    | none => rfl
    | some n => rfl
  · rw [if_neg h]

theorem setDirty_dirty_mono (g : BuildGraph) (i j : Nat)
    (h : dirtyAt g j = true) : dirtyAt (setDirty g i) j = true := by
  unfold dirtyAt at *
  rw [setDirty_get?]
  by_cases hj : j = i
  · subst hj
    cases hg : g.nodes.get? j with
    | none => rw [hg] at h; simp at h
    | some n => simp [hg]
  · rw [if_neg hj]
    exact h

theorem depsDirty_node_exists (g : BuildGraph) (i : Nat)
    (h : depsDirty g i = true) : ∃ n, g.nodes.get? i = some n := by
  cases hg : g.nodes.get? i with
  | some n => exact ⟨n, rfl⟩
  | none =>
    unfold depsDirty depsOf at h
    rw [hg] at h
    simp at h

theorem filter_modifyAt_dirty_lt : ∀ (l : List Node) (i : Nat) (n : Node),
    l.get? i = some n → n.dirty = false →
    ((modifyAt l i (fun m => { m with dirty := true })).filter
        (fun m => !m.dirty)).length
      < (l.filter (fun m => !m.dirty)).length := by
  intro l
  induction l with
  | nil => intro i n h; simp at h
  | cons x xs ih =>
    intro i n h hd
    cases i with
    | zero =>
      have hx : x = n := by simpa using h
      subst hx
      show ((({ x with dirty := true } : Node) :: xs).filter
          (fun m => !m.dirty)).length < _
      rw [List.filter_cons, List.filter_cons]
      simp only [hd]
      have hlen : ∀ ys : List Node,
          ((ys.filter (fun m => !m.dirty)).length)
            ≤ (ys.filter (fun m => !m.dirty)).length := fun _ => le_rfl
      simp
    | succ i =>
      have h2 : xs.get? i = some n := by simpa using h
      show ((x :: modifyAt xs i _).filter (fun m => !m.dirty)).length < _
      rw [List.filter_cons, List.filter_cons]
      by_cases hx : x.dirty
      · simp only [hx]
        simpa using ih i n h2 hd
      · simp only [Bool.not_eq_true] at hx
        simp only [hx]
        simpa using ih i n h2 hd

theorem setDirty_cleanCount_lt (g : BuildGraph) (i : Nat) (n : Node)
    (h : g.nodes.get? i = some n) (hd : n.dirty = false) :
    cleanCount (setDirty g i) < cleanCount g :=
  filter_modifyAt_dirty_lt g.nodes i n h hd

theorem passStep_length (acc : BuildGraph × Bool) (i : Nat) :
    (passStep acc i).1.nodes.length = acc.1.nodes.length := by
  unfold passStep
  split
  · exact setDirty_length acc.1 i
  · rfl

theorem passStep_eraseDirty (acc : BuildGraph × Bool) (i j : Nat) :
    ((passStep acc i).1.nodes.get? j).map eraseDirty
      = (acc.1.nodes.get? j).map eraseDirty := by
  unfold passStep
  split
  · exact setDirty_eraseDirty acc.1 i j
  · rfl

theorem passStep_dirty_mono (acc : BuildGraph × Bool) (i j : Nat)
    (h : dirtyAt acc.1 j = true) : dirtyAt (passStep acc i).1 j = true := by
  unfold passStep
  split
  · exact setDirty_dirty_mono acc.1 i j h
  · exact h

theorem passStep_flag_mono (acc : BuildGraph × Bool) (i : Nat)
    (h : acc.2 = true) : (passStep acc i).2 = true := by
  unfold passStep
  split
  · rfl
  · exact h

theorem passStep_cleanCount_le (acc : BuildGraph × Bool) (i : Nat) :
    cleanCount (passStep acc i).1 ≤ cleanCount acc.1 := by
  unfold passStep
  split
  · rename_i hcond
    rw [Bool.and_eq_true] at hcond
    rcases depsDirty_node_exists acc.1 i hcond.1 with ⟨n, hn⟩
    have hdirty : n.dirty = false := by
      have := hcond.2
      unfold dirtyAt at this
      rw [hn] at this
      simpa using this
    exact le_of_lt (setDirty_cleanCount_lt acc.1 i n hn hdirty)
  · exact le_rfl

theorem passStep_flag_new_decrease (acc : BuildGraph × Bool) (i : Nat)
    (h2 : (passStep acc i).2 = true) :
    acc.2 = true ∨ cleanCount (passStep acc i).1 < cleanCount acc.1 := by
  unfold passStep at h2 ⊢
  split
  · rename_i hcond
    rw [Bool.and_eq_true] at hcond
    rcases depsDirty_node_exists acc.1 i hcond.1 with ⟨n, hn⟩
    have hdirty : n.dirty = false := by
      have := hcond.2
      unfold dirtyAt at this
      rw [hn] at this
      simpa using this
    exact Or.inr (setDirty_cleanCount_lt acc.1 i n hn hdirty)
  · rename_i hcond
    rw [if_neg hcond] at h2
    exact Or.inl h2

theorem foldPass_length : ∀ (l : List Nat) (acc : BuildGraph × Bool),
    (l.foldl passStep acc).1.nodes.length = acc.1.nodes.length := by
  intro l
  induction l with
  | nil => intro acc; rfl
  | cons i rest ih =>
    intro acc
    show (rest.foldl passStep (passStep acc i)).1.nodes.length = _
    rw [ih (passStep acc i), passStep_length]

theorem foldPass_eraseDirty : ∀ (l : List Nat) (acc : BuildGraph × Bool) (j : Nat),
    ((l.foldl passStep acc).1.nodes.get? j).map eraseDirty
      = (acc.1.nodes.get? j).map eraseDirty := by
  intro l
  induction l with
  | nil => intro acc j; rfl
  | cons i rest ih =>
    intro acc j
    show ((rest.foldl passStep (passStep acc i)).1.nodes.get? j).map eraseDirty = _
    rw [ih (passStep acc i) j, passStep_eraseDirty]

theorem foldPass_dirty_mono : ∀ (l : List Nat) (acc : BuildGraph × Bool) (j : Nat),
    dirtyAt acc.1 j = true → dirtyAt (l.foldl passStep acc).1 j = true := by
  intro l
  induction l with
  | nil => intro acc j h; exact h
  | cons i rest ih =>
    intro acc j h
    exact ih (passStep acc i) j (passStep_dirty_mono acc i j h)

theorem foldPass_flag_mono : ∀ (l : List Nat) (acc : BuildGraph × Bool),
    acc.2 = true → (l.foldl passStep acc).2 = true := by
  intro l
  induction l with
  | nil => intro acc h; exact h
  | cons i rest ih =>
    intro acc h
    exact ih (passStep acc i) (passStep_flag_mono acc i h)

theorem foldPass_cleanCount_le : ∀ (l : List Nat) (acc : BuildGraph × Bool),
    cleanCount (l.foldl passStep acc).1 ≤ cleanCount acc.1 := by
  intro l
  induction l with
  | nil => intro acc; exact le_rfl
  | cons i rest ih =>
    intro acc
    exact le_trans (ih (passStep acc i)) (passStep_cleanCount_le acc i)

theorem foldPass_flag_decrease : ∀ (l : List Nat) (acc : BuildGraph × Bool),
    (l.foldl passStep acc).2 = true →
    acc.2 = true ∨ cleanCount (l.foldl passStep acc).1 < cleanCount acc.1 := by
  intro l
  induction l with
  | nil => intro acc h; exact Or.inl h
  | cons i rest ih =>
    intro acc h
    rcases ih (passStep acc i) h with h2 | h2
    · rcases passStep_flag_new_decrease acc i h2 with h3 | h3
      · exact Or.inl h3
      · exact Or.inr (lt_of_le_of_lt (foldPass_cleanCount_le rest (passStep acc i)) h3)
    · rcases passStep_flag_new_decrease acc i with _
      exact Or.inr (lt_of_lt_of_le h2 (passStep_cleanCount_le acc i))

theorem foldPass_no_change : ∀ (l : List Nat) (acc : BuildGraph × Bool),
    (l.foldl passStep acc).2 = false →
    l.foldl passStep acc = acc
      ∧ ∀ i ∈ l, ¬ (depsDirty acc.1 i = true ∧ dirtyAt acc.1 i = false) := by
  intro l
  induction l with
  | nil =>
    intro acc h
    exact ⟨rfl, by simp⟩
  | cons i rest ih =>
    intro acc h
    have hstep : passStep acc i = acc := by
      unfold passStep
      split
      · rename_i hcond
        exfalso
        have : (rest.foldl passStep (setDirty acc.1 i, true)).2 = true :=
          foldPass_flag_mono rest _ rfl
        have heq : (passStep acc i) = (setDirty acc.1 i, true) := by
          unfold passStep
          rw [if_pos hcond]
        rw [show ((i :: rest).foldl passStep acc)
            = rest.foldl passStep (passStep acc i) from rfl, heq] at h
        rw [this] at h
        exact Bool.true_eq_false.mp h
      · rfl
    have h2 : (rest.foldl passStep acc).2 = false := by
      rw [show ((i :: rest).foldl passStep acc)
          = rest.foldl passStep (passStep acc i) from rfl, hstep] at h
      exact h
    rcases ih acc h2 with ⟨hfix, hall⟩
    refine ⟨?_, ?_⟩
    · rw [show ((i :: rest).foldl passStep acc)
          = rest.foldl passStep (passStep acc i) from rfl, hstep]
      exact hfix
    · intro j hj
      rcases List.mem_cons.mp hj with rfl | hj
      · intro ⟨hd, hc⟩
        have : passStep acc j ≠ acc := by
          unfold passStep
          rw [if_pos (by rw [hd, hc]; rfl)]
          intro heq
          have := congrArg Prod.snd heq
          simp at this
          rcases depsDirty_node_exists acc.1 j hd with ⟨n, hn⟩
          have hdirty : n.dirty = false := by
            unfold dirtyAt at hc
            rw [hn] at hc
            simpa using hc
          have hlt := setDirty_cleanCount_lt acc.1 j n hn hdirty
          have := congrArg (fun p => cleanCount (Prod.fst p)) heq
          simp at this
          omega
        exact this hstep
      · exact hall j hj

theorem passOnce_false_fixpoint (g : BuildGraph)
    (h : (passOnce g).2 = false) :
    (passOnce g).1 = g
      ∧ ∀ i, depsDirty g i = true → dirtyAt g i = true := by
  rcases foldPass_no_change (List.range g.nodes.length) (g, false) h with ⟨hfix, hall⟩
  constructor
  · rw [show (passOnce g) = (List.range g.nodes.length).foldl passStep (g, false)
      from rfl, hfix]
  · intro i hd
    have hin : i < g.nodes.length := by
      rcases depsDirty_node_exists g i hd with ⟨n, hn⟩
      by_contra hge
      rw [List.get?_eq_none.mpr (Nat.le_of_not_lt hge)] at hn
      exact Option.noConfusion hn
    have := hall i (List.mem_range.mpr hin)
    by_contra hdirty
    exact this ⟨hd, by simpa using hdirty⟩

theorem propagateAux_length : ∀ (fuel : Nat) (g : BuildGraph),
    (propagateAux fuel g).nodes.length = g.nodes.length := by
  intro fuel
  induction fuel with
  | zero => intro g; rfl
  | succ fuel ih =>
    intro g
    show (if (passOnce g).2 then propagateAux fuel (passOnce g).1
      else (passOnce g).1).nodes.length = _
    split
    · rw [ih (passOnce g).1]
      exact foldPass_length _ _
    · exact foldPass_length _ _

theorem propagateAux_eraseDirty : ∀ (fuel : Nat) (g : BuildGraph) (j : Nat),
    ((propagateAux fuel g).nodes.get? j).map eraseDirty
      = (g.nodes.get? j).map eraseDirty := by
  intro fuel
  induction fuel with
  | zero => intro g j; rfl
  | succ fuel ih =>
    intro g j
    show ((if (passOnce g).2 then propagateAux fuel (passOnce g).1
      else (passOnce g).1).nodes.get? j).map eraseDirty = _
    split
    · rw [ih (passOnce g).1 j]
      exact foldPass_eraseDirty _ _ j
    · exact foldPass_eraseDirty _ _ j

theorem propagateAux_dirty_mono : ∀ (fuel : Nat) (g : BuildGraph) (j : Nat),
    dirtyAt g j = true → dirtyAt (propagateAux fuel g) j = true := by
  intro fuel
  induction fuel with
  | zero => intro g j h; exact h
  | succ fuel ih =>
    intro g j h
    show dirtyAt (if (passOnce g).2 then propagateAux fuel (passOnce g).1
      else (passOnce g).1) j = true
    split
    · exact ih (passOnce g).1 j (foldPass_dirty_mono _ _ j h)
    · exact foldPass_dirty_mono _ _ j h

theorem propagateAux_fixpoint : ∀ (fuel : Nat) (g : BuildGraph),
    cleanCount g < fuel →
    ∀ i, depsDirty (propagateAux fuel g) i = true →
      dirtyAt (propagateAux fuel g) i = true := by
  intro fuel
  induction fuel with
  | zero => intro g h; omega
  | succ fuel ih =>
    intro g h i
    show depsDirty (if (passOnce g).2 then propagateAux fuel (passOnce g).1
        else (passOnce g).1) i = true
      → dirtyAt (if (passOnce g).2 then propagateAux fuel (passOnce g).1
        else (passOnce g).1) i = true
    split
    · rename_i htrue
      have hdec : cleanCount (passOnce g).1 < cleanCount g := by
        rcases foldPass_flag_decrease (List.range g.nodes.length) (g, false) htrue with
          hfalse | hlt
        · exact absurd hfalse (by simp)
        · exact hlt
      exact ih (passOnce g).1 (by omega) i
    · rename_i hfalse
      rw [Bool.not_eq_true] at hfalse
      rcases passOnce_false_fixpoint g hfalse with ⟨hfix, hprop⟩
      rw [hfix]
      exact hprop i

/-- Dep lists survive propagation. -/
theorem propagate_depsOf (g : BuildGraph) (j : Nat) :
    depsOf (propagate_dirty g) j = depsOf g j := by
  have h := propagateAux_eraseDirty (g.nodes.length + 1) g j
  unfold depsOf propagate_dirty
  cases hg : (propagateAux (g.nodes.length + 1) g).nodes.get? j with
  | none =>
    rw [hg] at h
    cases hg2 : g.nodes.get? j with
    | none => rfl
    | some n => rw [hg2] at h; simp at h
  | some m =>
    rw [hg] at h
    cases hg2 : g.nodes.get? j with
    | none => rw [hg2] at h; simp at h
    | some n =>
      rw [hg2] at h
      have h2 : eraseDirty m = eraseDirty n := by simpa using h
      have h3 : m.deps = n.deps := by
        have := congrArg Node.deps h2
        simpa [eraseDirty] using this
      simp [h3]

theorem propagate_length (g : BuildGraph) :
    (propagate_dirty g).nodes.length = g.nodes.length :=
  propagateAux_length _ g

/-! ### Lemmas about the retry loop -/

theorem retryFrom_ok {α : Type} (op : Nat → Except MemoBuildError α) (maxA : Nat) :
    ∀ (r k m : Nat) (v : α), k ≤ m → m ≤ k + r →
    (∀ j, k ≤ j → j < m → ∃ e, op j = .error e) →
    op m = .ok v →
    retryFrom op maxA r k = (.ok v, m + 1) := by
  intro r
  induction r with
  | zero =>
    intro k m v hkm hmk hmid hok
    have hm : m = k := by omega
    subst hm
    unfold retryFrom
    rw [hok]
  | succ r ih =>
    intro k m v hkm hmk hmid hok
    by_cases hkm2 : k = m
    · subst hkm2
      unfold retryFrom
      rw [hok]
    · have hlt : k < m := lt_of_le_of_ne hkm hkm2
      rcases hmid k le_rfl hlt with ⟨e, he⟩
      unfold retryFrom
      rw [he]
      exact ih (k + 1) m v hlt (by omega)
        (fun j hj1 hj2 => hmid j (by omega) hj2) hok

theorem retryFrom_exhaust {α : Type} (op : Nat → Except MemoBuildError α)
    (maxA : Nat) :
    ∀ (r k : Nat),
    (∀ j, k ≤ j → j ≤ k + r → ∃ e, op j = .error e) →
    ∃ e, op (k + r) = .error e
      ∧ retryFrom op maxA r k = (.error (maxA, e), k + r + 1) := by
  intro r
  induction r with
  | zero =>
    intro k hmid
    rcases hmid k le_rfl (by omega) with ⟨e, he⟩
    refine ⟨e, he, ?_⟩
    unfold retryFrom
    rw [he]
  | succ r ih =>
    intro k hmid
    rcases hmid k le_rfl (by omega) with ⟨e0, he0⟩
    rcases ih (k + 1) (fun j hj1 hj2 => hmid j (by omega) (by omega)) with
      ⟨e, he, hrun⟩
    have harith : k + 1 + r = k + (r + 1) := by omega
    refine ⟨e, by rw [← harith]; exact he, ?_⟩
    unfold retryFrom
    rw [he0]
    show retryFrom op maxA r (k + 1) = (Except.error (maxA, e), k + (r + 1) + 1)
    rw [hrun, harith]

/-! ## Claim theorems -/

/-- C1: `compute_node_key` is a pure deterministic function of
(kind, content, env map, context_hash, source_content_hash, dep_hashes,
parallelizable, priority, env fingerprint): two calls agreeing on those
inputs return the same key even when every other node field differs, and the
key is invariant under any permutation of the `dep_hashes` list because dep
hashes are sorted before being fed to the hasher. -/
theorem compute_node_key_deterministic_and_dep_order_independent
    (b3 : String → String) (n₁ n₂ : Node) (d₁ d₂ : List String)
    (ctx fp : Option String)
    (hkind : n₁.kind = n₂.kind)
    (hcontent : n₁.content = n₂.content)
    (henv : n₁.env = n₂.env)
    (hsrc : n₁.metadata.sourceContentHash = n₂.metadata.sourceContentHash)
    (hpar : n₁.metadata.parallelizable = n₂.metadata.parallelizable)
    (hprio : n₁.metadata.priority = n₂.metadata.priority)
    (hdep : d₁.Perm d₂) :
    n₁.compute_node_key b3 d₁ ctx fp = n₂.compute_node_key b3 d₂ ctx fp := by
  unfold Node.compute_node_key
  rw [hkind, hcontent, henv, hsrc, hpar, hprio, sortStrings_perm_eq hdep]

/-- C1 witness: concrete instance — two nodes differing in id, name, stored
hash, dirty flag and dep ordinals, with dep hash lists that are permutations
of each other, get the same key. -/
theorem compute_node_key_witness :
    (Node.mk 0 "a" "RUN x" .run "" false [] none [("K", "V")] false
        ⟨none, none, true, 1, [], some "s", none, none⟩).compute_node_key
      id ["hb", "ha"] (some "ctx") (some "fp")
    = (Node.mk 7 "b" "RUN x" .run "zz" true [0, 1] none [("K", "V")] true
        ⟨some 3, some 4, true, 1, ["t"], some "s", some "im", some "om"⟩).compute_node_key
      id ["ha", "hb"] (some "ctx") (some "fp") := by
  apply compute_node_key_deterministic_and_dep_order_independent
  · rfl
  · rfl
  · rfl
  · rfl
  · rfl
  · rfl
  · exact List.Perm.swap "ha" "hb" []

/-- C2 counterexample: two manifests holding the same set of
{path, hash, size} entries in different orders.  The byte string
`ArtifactManifest::hash` feeds to blake3 (`manifestJson`) is not the
path-sorted canonical serialization (`canonicalManifestJson`), and the two
orderings feed different byte strings to the hasher — so the digest is
computed over the stored order, not over a canonical sorted form, and equal
entry sets do not yield equal digest inputs. -/
theorem manifest_hash_not_canonical_counterexample :
    (ArtifactManifest.mk [FileEntry.mk "b" "hb" 2, FileEntry.mk "a" "ha" 1]).files.Perm
      (ArtifactManifest.mk [FileEntry.mk "a" "ha" 1, FileEntry.mk "b" "hb" 2]).files
    ∧ manifestJson ⟨[FileEntry.mk "b" "hb" 2, FileEntry.mk "a" "ha" 1]⟩
        ≠ canonicalManifestJson ⟨[FileEntry.mk "b" "hb" 2, FileEntry.mk "a" "ha" 1]⟩
    ∧ manifestJson ⟨[FileEntry.mk "b" "hb" 2, FileEntry.mk "a" "ha" 1]⟩
        ≠ manifestJson ⟨[FileEntry.mk "a" "ha" 1, FileEntry.mk "b" "hb" 2]⟩ :=
  ⟨List.Perm.swap (FileEntry.mk "a" "ha" 1) (FileEntry.mk "b" "hb" 2) [],
   by decide, by decide⟩

/-- C2 as amended: the manifest digest is blake3 over the JSON serialization
of the entries in stored order (it equals the digest of the canonical sorted
form only when the entries are already sorted by path); merging keeps the
union of the two entry sets keyed by path, the right-hand manifest's entry
winning on a conflict. -/
theorem manifest_merge_union_right_wins (m1 m2 : ArtifactManifest) (p : String) :
    (findByPath (m1.merge m2).files p
      = (match lastByPath m2.files p with
         | some f => some f
         | none => lastByPath m1.files p))
    ∧ ((m1.merge m2).files.any (fun f => f.path = p)
        = (m2.files.any (fun f => f.path = p) || m1.files.any (fun f => f.path = p)))
    ∧ (∀ b3 : String → String,
        List.Sorted entryLePath m1.files →
        ArtifactManifest.hash b3 m1 = b3 (canonicalManifestJson m1)) := by
  refine ⟨merge_lookup m1 m2 p, ?_, ?_⟩
  · rw [any_eq_find?_isSome, any_eq_find?_isSome, any_eq_find?_isSome]
    have h := merge_lookup m1 m2 p
    unfold findByPath at h
    rw [h]
    have h2 : ∀ fs : List FileEntry,
        (fs.find? (fun f => f.path = p)).isSome
          = ((lastByPath fs p).isSome) := by
      intro fs
      unfold lastByPath
      rw [← any_eq_find?_isSome, ← any_eq_find?_isSome, List.any_reverse]
    rw [h2 m2.files, h2 m1.files]
    cases lastByPath m2.files p with
    | some f => rfl
    | none => simp
  · intro b3 hsorted
    unfold ArtifactManifest.hash canonicalManifestJson
    rw [List.Sorted.insertionSort_eq hsorted]

/-- C2 witness: concrete merge where both manifests carry path "a" — the
right manifest's entry survives — and a sorted one-entry manifest whose code
digest input coincides with the canonical form. -/
theorem manifest_merge_union_right_wins_witness :
    findByPath ((ArtifactManifest.mk [FileEntry.mk "a" "h1" 1]).merge
      ⟨[FileEntry.mk "a" "h2" 2]⟩).files "a" = some (FileEntry.mk "a" "h2" 2)
    ∧ ArtifactManifest.hash id ⟨[FileEntry.mk "a" "h1" 1]⟩
        = id (canonicalManifestJson ⟨[FileEntry.mk "a" "h1" 1]⟩) :=
  ⟨(manifest_merge_union_right_wins ⟨[FileEntry.mk "a" "h1" 1]⟩
      ⟨[FileEntry.mk "a" "h2" 2]⟩ "a").1.trans (by decide),
   (manifest_merge_union_right_wins ⟨[FileEntry.mk "a" "h1" 1]⟩
      ⟨[FileEntry.mk "a" "h2" 2]⟩ "a").2.2 id (List.sorted_singleton _)⟩

/-- C4: evaluation at `chainGraph3` (0 ← 1 ← 2, which satisfies the DAG
invariant).  `topological_order()` returns [2, 1, 0] — every dependent comes
BEFORE its dependency, the reverse of the claimed order — and `levels()`
returns [[0], [1, 2]]: level 1 contains node 2 although its dependency,
node 1, sits in the same level rather than in levels 0..0, and the number of
levels minus one is 1 while the longest dependency chain (0 ← 1 ← 2) has
length 2.  The `stack.reverse()` in src/graph.rs line 152 flips a stack that
is already in dependency-first order. -/
theorem topological_order_levels_failing_input :
    topological_order chainGraph3 = [2, 1, 0]
    ∧ topoRespectsDeps chainGraph3 (topological_order chainGraph3) = false
    ∧ levels chainGraph3 = [[0], [1, 2]]
    ∧ levelsWellFormed chainGraph3 = false
    ∧ (levels chainGraph3).length - 1 = 1
    ∧ depsOf chainGraph3 1 = [0]
    ∧ depsOf chainGraph3 2 = [1] := by
  refine ⟨?_, ?_, ?_, ?_, ?_, ?_, ?_⟩ <;> decide

/-- C5: after `propagate_dirty`, every node transitively reachable through
reverse-dependency edges from a node that was dirty before the call is
dirty, and the result is a fixed point of the cascade rule: no node with a
dirty in-range dependency remains clean. -/
theorem propagate_dirty_cascade_fixpoint (g : BuildGraph) :
    (∀ a b, dirtyAt g a = true → Relation.ReflTransGen (depEdge g) a b →
      dirtyAt (propagate_dirty g) b = true)
    ∧ (∀ i, depsDirty (propagate_dirty g) i = true →
        dirtyAt (propagate_dirty g) i = true) := by
  have hfix : ∀ i, depsDirty (propagate_dirty g) i = true →
      dirtyAt (propagate_dirty g) i = true := by
    apply propagateAux_fixpoint
    have hle : cleanCount g ≤ g.nodes.length := List.length_filter_le _ _
    omega
  refine ⟨?_, hfix⟩
  intro a b ha hr
  induction hr with
  | refl => exact propagateAux_dirty_mono _ g a ha
  | tail hstep hedge ih =>
    rcases hedge with ⟨hd_lt, hm_lt, hmem⟩
    apply hfix
    unfold depsDirty
    simp only [propagate_depsOf, propagate_length]
    apply List.any_eq_true.mpr
    refine ⟨_, hmem, ?_⟩
    rw [Bool.and_eq_true]
    exact ⟨decide_eq_true hd_lt, ih⟩

/-- C5 witness: in the concrete chain with node 0 dirty, node 2 — reachable
from 0 through two reverse-dependency edges — is dirty after propagation. -/
theorem propagate_dirty_cascade_fixpoint_witness :
    dirtyAt (propagate_dirty chainGraph3Dirty) 2 = true :=
  (propagate_dirty_cascade_fixpoint chainGraph3Dirty).1 0 2 (by decide)
    (Relation.ReflTransGen.tail
      (Relation.ReflTransGen.single
        (show depEdge chainGraph3Dirty 0 1 from ⟨by decide, by decide, by decide⟩))
      (show depEdge chainGraph3Dirty 1 2 from ⟨by decide, by decide, by decide⟩))

/-- C10: `propagate_dirty` only ever sets dirty flags and changes nothing
else — the node count is unchanged, each node keeps its id, name, content,
kind, hash, deps, source_path, env, cache_hit and metadata, and a node dirty
before the call is dirty after it. -/
theorem propagate_dirty_frame (g : BuildGraph) :
    (propagate_dirty g).nodes.length = g.nodes.length
    ∧ ∀ i n, g.nodes.get? i = some n →
        ∃ m, (propagate_dirty g).nodes.get? i = some m
          ∧ m.id = n.id ∧ m.name = n.name ∧ m.content = n.content
          ∧ m.kind = n.kind ∧ m.hash = n.hash ∧ m.deps = n.deps
          ∧ m.sourcePath = n.sourcePath ∧ m.env = n.env
          ∧ m.cacheHit = n.cacheHit ∧ m.metadata = n.metadata
          ∧ (n.dirty = true → m.dirty = true) := by
  refine ⟨propagate_length g, ?_⟩
  intro i n hn
  have h := propagateAux_eraseDirty (g.nodes.length + 1) g i
  have hmono := propagateAux_dirty_mono (g.nodes.length + 1) g i
  unfold propagate_dirty
  cases hm : (propagateAux (g.nodes.length + 1) g).nodes.get? i with
  | none =>
    rw [hm, hn] at h
    simp at h
  | some m =>
    rw [hm, hn] at h
    have h2 : eraseDirty m = eraseDirty n := by simpa using h
    refine ⟨m, rfl, ?_, ?_, ?_, ?_, ?_, ?_, ?_, ?_, ?_, ?_, ?_⟩
    · have := congrArg Node.id h2; simpa [eraseDirty] using this
    · have := congrArg Node.name h2; simpa [eraseDirty] using this
    · have := congrArg Node.content h2; simpa [eraseDirty] using this
    · have := congrArg Node.kind h2; simpa [eraseDirty] using this
    · have := congrArg Node.hash h2; simpa [eraseDirty] using this
    · have := congrArg Node.deps h2; simpa [eraseDirty] using this
    · have := congrArg Node.sourcePath h2; simpa [eraseDirty] using this
    · have := congrArg Node.env h2; simpa [eraseDirty] using this
    · have := congrArg Node.cacheHit h2; simpa [eraseDirty] using this
    · have := congrArg Node.metadata h2; simpa [eraseDirty] using this
    · intro hd
      have hg : dirtyAt g i = true := by
        unfold dirtyAt
        rw [hn]
        simpa using hd
      have hfin := hmono hg
      unfold dirtyAt at hfin
      rw [hm] at hfin
      simpa using hfin

/-- C10 witness: concrete instance at node 1 of the dirty chain. -/
theorem propagate_dirty_frame_witness :
    ∃ m, (propagate_dirty chainGraph3Dirty).nodes.get? 1 = some m
      ∧ m.id = (sampleNode 1 [0] false).id
      ∧ m.name = (sampleNode 1 [0] false).name
      ∧ m.content = (sampleNode 1 [0] false).content
      ∧ m.kind = (sampleNode 1 [0] false).kind
      ∧ m.hash = (sampleNode 1 [0] false).hash
      ∧ m.deps = (sampleNode 1 [0] false).deps
      ∧ m.sourcePath = (sampleNode 1 [0] false).sourcePath
      ∧ m.env = (sampleNode 1 [0] false).env
      ∧ m.cacheHit = (sampleNode 1 [0] false).cacheHit
      ∧ m.metadata = (sampleNode 1 [0] false).metadata
      ∧ ((sampleNode 1 [0] false).dirty = true → m.dirty = true) :=
  (propagate_dirty_frame chainGraph3Dirty).2 1 (sampleNode 1 [0] false) rfl

/-- C3: merging the chunk data produced by splitting any byte string `b`, in
stored order, returns exactly `b`; a zero-byte artifact splits into an empty
chunk list and merging an empty list gives empty bytes; each produced chunk
is at most 1 MiB (`CHUNK_SIZE`) and carries the digest of its own bytes. -/
theorem split_merge_roundtrip (b3 : List Nat → String) (b : List Nat) :
    merge_artifact ((split_artifact b3 b).map ArtifactLayer.data) = b
    ∧ (b = [] → split_artifact b3 b = [])
    ∧ merge_artifact ([] : List (List Nat)) = []
    ∧ ∀ layer ∈ split_artifact b3 b,
        layer.data.length ≤ CHUNK_SIZE ∧ layer.hash = b3 layer.data := by
  refine ⟨?_, ?_, rfl, ?_⟩
  · unfold merge_artifact split_artifact
    rw [List.map_map]
    have : (ArtifactLayer.data ∘ fun c => ({ hash := b3 c, data := c } : ArtifactLayer))
        = id := rfl
    rw [this, List.map_id]
    exact chunksOf_flatten b.length b le_rfl
  · intro hb
    subst hb
    unfold split_artifact chunksOf
    simp
  · intro layer hmem
    unfold split_artifact at hmem
    rcases List.mem_map.mp hmem with ⟨c, hc, rfl⟩
    exact ⟨chunksOf_mem_bounds b.length b le_rfl c hc, rfl⟩

/-- C3 witness: concrete instance of the roundtrip at a three-byte artifact. -/
theorem split_merge_roundtrip_witness :
    merge_artifact ((split_artifact (fun _ => "h") [10, 20, 30]).map
      ArtifactLayer.data) = [10, 20, 30] :=
  (split_merge_roundtrip (fun _ => "h") [10, 20, 30]).1

/-- C6: the server's PUT handler computes the digest over the request body
exactly as received and never decompresses it.  The client sends
gzip-compressed bytes (`HttpRemoteCache::put`), so a body `gz data` whose
declared hash matches the decompressed bytes (`b3 data = hash`) but not the
wire bytes is rejected with 400 and a `CASIntegrityFailure` whose `actual`
is the digest of the compressed bytes, and nothing is stored — where the
claim (and the spec) say verification over the decompressed bytes must
accept it with 201.  The same body sent uncompressed would be accepted. -/
theorem put_artifact_verifies_raw_body (b3 : List Nat → String)
    (gz : List Nat → List Nat) (hash : String) (data : List Nat)
    (store : List (String × List Nat))
    (hdecl : b3 data = hash) (hwire : b3 (gz data) ≠ hash) :
    (put_artifact b3 hash (gz data) store
      = { status := 400,
          integrityError :=
            some (.casIntegrityFailure hash (b3 (gz data)) (gz data).length),
          store := store })
    ∧ put_artifact b3 hash data store
      = { status := 201, integrityError := none, store := (hash, data) :: store } := by
  constructor
  · simp only [put_artifact]
    rw [if_pos hwire]
  · simp only [put_artifact, hdecl]
    simp

/-- C6 witness: with digest `toString length`, compression `0 :: bytes`,
declared hash "1" and decompressed body [7], the compressed body [0, 7] is
rejected with 400 and the store is untouched. -/
theorem put_artifact_verifies_raw_body_witness :
    put_artifact (fun l => toString l.length) "1" [0, 7] []
      = { status := 400,
          integrityError := some (.casIntegrityFailure "1" "2" 2),
          store := [] } :=
  (put_artifact_verifies_raw_body (fun l => toString l.length)
    (fun l => 0 :: l) "1" [7] [] (by decide) (by decide)).1

/-- C7 counterexample: an operation whose first invocation fails with a CAS
integrity failure (which `is_retryable` classifies as non-retryable) is
nonetheless invoked a second time by `retry_with_backoff` under the default
configuration — the loop performs a further attempt after the integrity
error and returns that attempt's success, where the claim requires no
further attempt. -/
theorem retry_integrity_retried_counterexample :
    opIntegrityThenOk 0 = .error (.casIntegrityFailure "e" "a" 5)
    ∧ is_retryable (.casIntegrityFailure "e" "a" 5) = false
    ∧ retry_with_backoff opIntegrityThenOk defaultRetryConfig = (.ok 42, 2)
    ∧ (retry_with_backoff opIntegrityThenOk defaultRetryConfig).2 ≠ 1 :=
  ⟨rfl, rfl, rfl, by decide⟩

/-- C7 as amended: `retry_with_backoff` never inspects the error kind — it
retries EVERY failed attempt, CAS integrity failures included, up to
`max_attempts` invocations, and succeeds as soon as one attempt succeeds;
`is_retryable` does classify `CASIntegrityFailure` as non-retryable, but the
retry loop never consults it. -/
theorem retry_with_backoff_retries_all_errors (α : Type) :
    (∀ exp act sz, is_retryable (.casIntegrityFailure exp act sz) = false)
    ∧ (∀ (op : Nat → Except MemoBuildError α) (cfg : RetryConfig) (m : Nat) (v : α),
        m < cfg.maxAttempts →
        (∀ j, j < m → ∃ e, op j = .error e) →
        op m = .ok v →
        retry_with_backoff op cfg = (.ok v, m + 1))
    ∧ (∀ (op : Nat → Except MemoBuildError α) (cfg : RetryConfig),
        0 < cfg.maxAttempts →
        (∀ j, j < cfg.maxAttempts → ∃ e, op j = .error e) →
        ∃ e, op (cfg.maxAttempts - 1) = .error e
          ∧ retry_with_backoff op cfg
            = (.error (cfg.maxAttempts, e), cfg.maxAttempts)) := by
  refine ⟨fun exp act sz => rfl, ?_, ?_⟩
  · intro op cfg m v hm hfail hok
    unfold retry_with_backoff
    exact retryFrom_ok op cfg.maxAttempts (cfg.maxAttempts - 1) 0 m v
      (Nat.zero_le m) (by omega) (fun j hj1 hj2 => hfail j hj2) hok
  · intro op cfg hpos hfail
    unfold retry_with_backoff
    rcases retryFrom_exhaust op cfg.maxAttempts (cfg.maxAttempts - 1) 0
      (fun j hj1 hj2 => hfail j (by omega)) with ⟨e, he, hrun⟩
    refine ⟨e, by simpa using he, ?_⟩
    rw [hrun]
    have : 0 + (cfg.maxAttempts - 1) + 1 = cfg.maxAttempts := by omega
    rw [this]

/-- C7 witness: the amended behaviour at the concrete integrity-then-success
operation — two invocations, ending in the second one's success. -/
theorem retry_with_backoff_retries_all_errors_witness :
    retry_with_backoff opIntegrityThenOk defaultRetryConfig = (.ok 42, 1 + 1) :=
  (retry_with_backoff_retries_all_errors Nat).2.1 opIntegrityThenOk
    defaultRetryConfig 1 42 (by decide)
    (fun j hj => ⟨.casIntegrityFailure "e" "a" 5, by
      have hj0 : j = 0 := by omega
      subst hj0
      rfl⟩)
    rfl

/-- C8: under DataLocality with a non-empty, unchanged worker set, the
selected worker index is a deterministic function of
`input_root_digest.hash` alone — two requests agreeing on that hash select
the same index whatever their other fields, the rng draw or the round-robin
counter; with an empty worker set, `execute` returns the
no-available-workers error. -/
theorem scheduler_data_locality_and_empty {α : Type} [Inhabited α]
    (s t : Scheduler α) (b3Bytes : String → List Nat) (rng1 rng2 c1 c2 : Nat)
    (run : α → ActionRequest → ActionResult) (a1 a2 : ActionRequest)
    (hstrat : s.strategy = .dataLocality) (hne : s.workers ≠ [])
    (hh : a1.inputRootDigest.hash = a2.inputRootDigest.hash)
    (hempty : t.workers = []) :
    (∃ idx, s.select_worker b3Bytes rng1 c1 a1 = .ok (idx, c1)
        ∧ s.select_worker b3Bytes rng2 c2 a2 = .ok (idx, c2))
    ∧ t.execute b3Bytes rng1 c1 run a1
        = .error "No available workers in the build farm" := by
  have hie : s.workers.isEmpty = false := by
    cases hw : s.workers with
    | nil => exact absurd hw hne
    | cons x xs => rfl
  constructor
  · refine ⟨((b3Bytes a1.inputRootDigest.hash).getD 0 0
        + (b3Bytes a1.inputRootDigest.hash).getD 1 0 * 256) % s.workers.length,
      ?_, ?_⟩
    · simp [Scheduler.select_worker, hie, hstrat]
    · simp [Scheduler.select_worker, hie, hstrat, ← hh]
  · simp [Scheduler.execute, Scheduler.select_worker, hempty]

/-- C8 witness: three workers, two requests with equal input-root hash but
different commands, env, rng draws and counters, routed to one index; the
empty scheduler errors. -/
theorem scheduler_data_locality_and_empty_witness :
    (∃ idx, (Scheduler.mk ["w0", "w1", "w2"] .dataLocality).select_worker
          (fun h => [h.data.length, 1]) 4 0
          ⟨["/bin/sh", "-c", "x"], [], ⟨"abc", 0⟩, 3600, [], [], []⟩
        = .ok (idx, 0)
        ∧ (Scheduler.mk ["w0", "w1", "w2"] .dataLocality).select_worker
          (fun h => [h.data.length, 1]) 9 7
          ⟨["other"], [("K", "V")], ⟨"abc", 99⟩, 60, [], [], []⟩
        = .ok (idx, 7))
    ∧ (Scheduler.mk ([] : List String) .dataLocality).execute
        (fun h => [h.data.length, 1]) 4 0
        (fun w a => ⟨[], 0, [], [], ⟨w, none, none, none⟩⟩)
        ⟨["/bin/sh", "-c", "x"], [], ⟨"abc", 0⟩, 3600, [], [], []⟩
      = .error "No available workers in the build farm" :=
  scheduler_data_locality_and_empty
    (Scheduler.mk ["w0", "w1", "w2"] .dataLocality)
    (Scheduler.mk ([] : List String) .dataLocality)
    (fun h => [h.data.length, 1]) 4 9 0 7
    (fun w a => ⟨[], 0, [], [], ⟨w, none, none, none⟩⟩)
    ⟨["/bin/sh", "-c", "x"], [], ⟨"abc", 0⟩, 3600, [], [], []⟩
    ⟨["other"], [("K", "V")], ⟨"abc", 99⟩, 60, [], [], []⟩
    rfl (by decide) rfl rfl

/-- C9: evaluation of the local-sandbox branch at a command that exits with
code 5: the function returns the bail error after calling only `prepare`
and `execute` — `cleanup` is NOT invoked on the non-zero-exit path (nor on
the `execute`-error path), only on the successful path, where the claim and
the spec require it on every exit path.  `LocalSandbox::cleanup` itself is a
no-op, so the local sandbox leaks nothing, but the invocation contract the
claim states does not hold. -/
theorem sandbox_cleanup_skipped_on_failure :
    execute_node_sandbox (.ok ⟨"/ws", []⟩)
        (fun _ => .ok ⟨5, [104, 105], [101]⟩) localSandboxCleanup
      = (.error (.commandFailed 5 [101]), [.prepare, .execute])
    ∧ ((execute_node_sandbox (.ok ⟨"/ws", []⟩)
        (fun _ => .ok ⟨5, [104, 105], [101]⟩)
          localSandboxCleanup).2.contains .cleanup = false)
    ∧ ((execute_node_sandbox (.ok ⟨"/ws", []⟩)
        (fun _ => .error (.sandboxFailure "spawn failed"))
          localSandboxCleanup).2.contains .cleanup = false)
    ∧ execute_node_sandbox (.ok ⟨"/ws", []⟩)
        (fun _ => .ok ⟨0, [104], []⟩) localSandboxCleanup
      = (.ok [104], [.prepare, .execute, .cleanup]) :=
  ⟨rfl, by decide, by decide, rfl⟩

end MemoBuild
